import Mathlib

/-!
Shallow embedding of `src/Python/Extractors/douyin_downloader.py` (the
variant of the `DouyinDownloader` class that includes live-photo handling;
`src/Code/Python/Extractors/douyin_downloader.py` is a trimmed copy whose
shared methods — `timestamp_to_str`, `is_valid_video_id`, `download`,
`_download_file_with_progress`, `download_video`, `download_image`,
`_download_if_not_exists`, `process_data` — are line-for-line identical).

Modelling conventions:
* Paths are the file names inside the single save directory (every path the
  program touches is `self.save_dir / name`), so a path is a `String`.
* The filesystem is an association list from names to file data (bytes plus
  access/modification times).  `os.rename`, `os.utime`, `unlink` and
  `open(..., "wb")` are modelled as pure operations on this list and are
  assumed not to fail themselves; the fallible effects are the network ones.
* The network is an oracle mapping a URL to the outcome of
  `httpx.stream("GET", url)`: either a connect-time `httpx.RequestError`, or
  a response carrying a status code, the list of body chunks actually
  delivered by `iter_bytes`, and a flag telling whether the stream ran to
  completion (`ok = false` models an exception raised mid-stream, after the
  listed chunks were already written).
* `datetime.fromtimestamp` uses the local timezone; it is modelled as a
  fixed UTC offset `tz` (in seconds) threaded through as a parameter.
* JSON records are typed structures with `Option` fields; a `.get(k, d)`
  chain becomes `Option.bind`/`Option.getD` with the same defaults.
-/

namespace Douyin

/-! ### Bytes, file data and the filesystem -/

/-- The byte content of a file, as the list of byte values written. -/
abbrev Bytes := List Nat

/-- What the filesystem stores for one file: its bytes and the
`(atime, mtime)` pair that `os.utime` manipulates.  Freshly written files
get time `0` (a fixed modelling constant standing for "now"); only
`os.utime` assigns meaningful times in this program. -/
structure FileData where
  bytes : Bytes
  atime : ℚ
  mtime : ℚ
deriving DecidableEq, Repr

/-- The save directory's contents: an association list from file name to
file data.  Later entries shadowed by earlier ones never occur because
writes first remove the old entry. -/
abbrev FS := List (String × FileData)

/-- `Path.exists()` for a name inside the save directory. -/
def fsExists (fs : FS) (p : String) : Bool :=
  (fs.lookup p).isSome

/-- `unlink` / the removal half of `os.rename`. -/
def fsRemove (fs : FS) (p : String) : FS :=
  fs.filter (fun e => e.1 ≠ p)

/-- `open(p, "wb")` followed by writing `d` (or the insertion half of
`os.rename`): replaces any previous file at `p`. -/
def fsWrite (fs : FS) (p : String) (d : FileData) : FS :=
  (p, d) :: fsRemove fs p

/-! ### TimestampCodec: `timestamp_to_str` and friends -/

/-- The unit heuristic inlined at the top of `timestamp_to_str`:
`if timestamp > 1e10: timestamp = timestamp / 1000`. -/
def timestampNormalize (raw : ℚ) : ℚ :=
  if raw > 10000000000 then raw / 1000 else raw

/-- Zero-pad a number to two digits, as `strftime`'s `%m%d%H%M%S` fields do. -/
def pad2 (n : Nat) : String :=
  if n < 10 then "0" ++ toString n else toString n

/-- Convert a count of days since 1970-01-01 to a `(year, month, day)`
civil date (proleptic Gregorian), the arithmetic underlying
`datetime.fromtimestamp`. -/
def civilFromDays (z0 : Int) : Int × Nat × Nat :=
  let z := z0 + 719468
  let era := z.fdiv 146097
  let doe := (z - era * 146097).toNat
  let yoe := (doe - doe / 1460 + doe / 36524 - doe / 146096) / 365
  let doy := doe - (365 * yoe + yoe / 4 - yoe / 100)
  let mp := (5 * doy + 2) / 153
  let d := doy - (153 * mp + 2) / 5 + 1
  let m := if mp < 10 then mp + 3 else mp - 9
  let y : Int := (yoe : Int) + era * 400 + (if m ≤ 2 then 1 else 0)
  (y, m, d)

/-- `datetime.fromtimestamp(seconds).strftime("%Y%m%d%H%M%S")` at a local
timezone that is `tz` seconds ahead of UTC. -/
def formatSeconds (tz : Int) (seconds : ℚ) : String :=
  let total : Int := ⌊seconds⌋ + tz
  let days := total.fdiv 86400
  let sod := (total.emod 86400).toNat
  let c := civilFromDays days
  toString c.1 ++ pad2 c.2.1 ++ pad2 c.2.2 ++
    pad2 (sod / 3600) ++ pad2 (sod % 3600 / 60) ++ pad2 (sod % 60)

/-- `DouyinDownloader.timestamp_to_str`: normalize the raw timestamp with
the `> 1e10` millisecond heuristic, then format it `YYYYMMDDHHMMSS`. -/
def timestamp_to_str (tz : Int) (timestamp : ℚ) : String :=
  formatSeconds tz (timestampNormalize timestamp)

/-! ### IdentifierValidator: `is_valid_video_id` -/

/-- `DouyinDownloader.is_valid_video_id`: the argument (always a string in
the typed model, matching the `isinstance(value, str)` guard) must fully
match `[a-zA-Z0-9]+`, i.e. be nonempty and consist of ASCII letters and
digits only. -/
def is_valid_video_id (value : String) : Bool :=
  value != "" && value.data.all (fun c => c.isAlphanum)

/-! ### NameBuilder: the three f-strings -/

/-- The f-string in `download_video`. -/
def videoName (tz : Int) (user_id : String) (created_time : ℚ)
    (video_id : String) : String :=
  "douyin_" ++ user_id ++ "_" ++ timestamp_to_str tz created_time ++ "_" ++
    video_id ++ ".mp4"

/-- The f-string in `download_image`. -/
def imageName (tz : Int) (user_id : String) (created_time : ℚ)
    (filename_suffix : String) : String :=
  "douyin_" ++ user_id ++ "_" ++ timestamp_to_str tz created_time ++ "_" ++
    filename_suffix ++ ".jpeg"

/-- The f-string in `_download_live_photo`. -/
def livePhotoName (tz : Int) (user_id : String) (created_time : ℚ)
    (live_photo_uri : String) : String :=
  "douyin_" ++ user_id ++ "_" ++ timestamp_to_str tz created_time ++ "_" ++
    live_photo_uri ++ ".mov"

/-! ### `Path.with_suffix(".part")` -/

/-- The characters strictly before the last `'.'` of the list, or `none`
when the list has no `'.'`. -/
def stemChars : List Char → Option (List Char)
  | [] => none
  | c :: rest =>
    match stemChars rest with
    | some s => some (c :: s)
    | none => if c = '.' then some ([] : List Char) else none

/-- The characters of a name up to (excluding) the dot that starts its
suffix, or the whole name when it has no suffix.  A dot in leading
position does not start a suffix (pathlib treats a leading dot as a
hidden-file marker). -/
def stemOrSelf (l : List Char) : List Char :=
  match l with
  | [] => []
  | c :: rest =>
    match stemChars rest with
    | some s => c :: s
    | none => c :: rest

/-- `save_path.with_suffix(".part")` on a file name: replace the suffix
(everything from the last dot) by `".part"`; a name with no suffix gets
`".part"` appended. -/
def withSuffixPart (name : String) : String :=
  String.mk (stemOrSelf name.data) ++ ".part"

/-! ### The record shapes read from `user_all_aweme_data.json` -/

/-- `aweme["author"]`. -/
structure Author where
  uid : Option String
deriving DecidableEq, Repr

/-- A `play_addr` object, under `aweme["video"]` or `image["video"]`. -/
structure PlayAddr where
  uri : Option String
  url_list : Option (List String)
deriving DecidableEq, Repr

/-- A `video` object (of an aweme, or the live-photo clip of an image). -/
structure VideoObj where
  play_addr : Option PlayAddr
deriving DecidableEq, Repr

/-- One element of `aweme["images"]`. -/
structure ImageItem where
  uri : Option String
  url_list : Option (List String)
  video : Option VideoObj
deriving DecidableEq, Repr

/-- One aweme record. -/
structure Aweme where
  author : Option Author
  create_time : Option ℚ
  video : Option VideoObj
  images : Option (List ImageItem)
deriving DecidableEq, Repr

/-- One element of the top-level JSON array. -/
structure AwemeItem where
  aweme_list : Option (List Aweme)
deriving DecidableEq, Repr

/-- `aweme.get("author", \x7b\x7d).get("uid", "unknown")`. -/
def userIdOf (a : Aweme) : String :=
  (a.author.bind Author.uid).getD "unknown"

/-- `aweme.get("create_time", 0)`. -/
def createdTimeOf (a : Aweme) : ℚ :=
  a.create_time.getD 0

/-- `aweme.get("video", \x7b\x7d).get("play_addr", \x7b\x7d).get("uri", "")`. -/
def videoIdOf (a : Aweme) : String :=
  ((a.video.bind VideoObj.play_addr).bind PlayAddr.uri).getD ""

/-- `aweme.get("video", \x7b\x7d).get("play_addr", \x7b\x7d).get("url_list", [""])`
— the list whose `[0]` element `process_data` takes as `video_url`. -/
def videoUrlListOf (a : Aweme) : List String :=
  ((a.video.bind VideoObj.play_addr).bind PlayAddr.url_list).getD [""]

/-- `image_item.get("video", \x7b\x7d).get("play_addr", \x7b\x7d).get("uri", "")`. -/
def livePhotoUriOf (item : ImageItem) : String :=
  ((item.video.bind VideoObj.play_addr).bind PlayAddr.uri).getD ""

/-- `image_item.get("video", \x7b\x7d).get("play_addr", \x7b\x7d).get("url_list", [""])`
— the list whose `[0]` element `_download_live_photo` takes. -/
def livePhotoUrlListOf (item : ImageItem) : List String :=
  ((item.video.bind VideoObj.play_addr).bind PlayAddr.url_list).getD [""]

/-- The characters strictly after the last occurrence of `sep`, or `none`
when `sep` does not occur. -/
def afterLastSep (sep : Char) : List Char → Option (List Char)
  | [] => none
  | c :: rest =>
    match afterLastSep sep rest with
    | some s => some s
    | none => if c = sep then some rest else none

/-- `image_item.get("uri", "").split("/")[-1]`: the final path segment
(`split` of a string with no separator yields the string itself, so the
index is always in range). -/
def lastSegment (s : String) : String :=
  match afterLastSep '/' s.data with
  | some r => String.mk r
  | none => s

/-! ### Download tasks

`process_data` downloads as it classifies; the model first collects the
tasks a record generates (in download order) and then runs them, which
yields the same filesystem and results whenever classification succeeds.
A Python `IndexError` from `[0]` on a present-but-empty `url_list` is the
one classification failure; it is uncaught in the source and aborts
`process_data`, modelled by `Except.error`. -/

/-- Decidable equality for `Except`, so concrete classification results
can be checked by `decide`. -/
instance {ε α : Type} [DecidableEq ε] [DecidableEq α] :
    DecidableEq (Except ε α)
  | .error e, .error f =>
    if h : e = f then .isTrue (by rw [h]) else .isFalse (by simp [h])
  | .error _, .ok _ => .isFalse (by simp)
  | .ok _, .error _ => .isFalse (by simp)
  | .ok a, .ok b =>
    if h : a = b then .isTrue (by rw [h]) else .isFalse (by simp [h])

/-- The three task kinds the classifier emits. -/
inductive Kind
  | video
  | image
  | liveClip
deriving DecidableEq, Repr

/-- One download unit: `download(url, save_path, created_time)` applied to
a name built by one of the three f-strings. -/
structure Task where
  kind : Kind
  url : String
  dest : String
  createdAt : ℚ
deriving DecidableEq, Repr

/-- The uncaught exception classification can raise. -/
inductive Err
  | indexError
deriving DecidableEq, Repr

/-- `_process_images` body for one element of `aweme.get("images", [])`:
skip when `url_list` is missing or empty (warning only), otherwise emit
either the live-photo pair (clip first, from
`image.video.play_addr.url_list[0]`, then the paired image from
`url_list[-1]`, both named by the live-photo uri) or the single image task
named by the basename of `uri`. -/
def imageItemTasks (tz : Int) (user_id : String) (created_time : ℚ)
    (item : ImageItem) : Except Err (List Task) :=
  match item.url_list.getD [] with
  | [] => .ok []
  | u :: us =>
    if livePhotoUriOf item != "" && is_valid_video_id (livePhotoUriOf item)
    then
      match livePhotoUrlListOf item with
      | [] => .error .indexError
      | lp_url :: _ =>
        .ok [⟨.liveClip, lp_url,
               livePhotoName tz user_id created_time (livePhotoUriOf item),
               created_time⟩,
             ⟨.image, (u :: us).getLastD "",
               imageName tz user_id created_time (livePhotoUriOf item),
               created_time⟩]
    else
      .ok [⟨.image, (u :: us).getLastD "",
             imageName tz user_id created_time (lastSegment (item.uri.getD "")),
             created_time⟩]

/-- Fold `imageItemTasks` over the image list, aborting on the first
uncaught error exactly as the Python loop would. -/
def imageListTasks (tz : Int) (user_id : String) (created_time : ℚ) :
    List ImageItem → Except Err (List Task)
  | [] => .ok []
  | item :: rest =>
    match imageItemTasks tz user_id created_time item with
    | .error e => .error e
    | .ok t =>
      match imageListTasks tz user_id created_time rest with
      | .error e => .error e
      | .ok ts => .ok (t ++ ts)

/-- The per-aweme body of `process_data`: extract `user_id`, `created_time`,
`video_id` and `video_url` (the `[0]` of `videoUrlListOf` — evaluated before
the branch, so a present-but-empty `url_list` raises regardless of which
branch would run), then emit the video task or process the images. -/
def awemeTasks (tz : Int) (a : Aweme) : Except Err (List Task) :=
  match videoUrlListOf a with
  | [] => .error .indexError
  | video_url :: _ =>
    if is_valid_video_id (videoIdOf a) then
      .ok [⟨.video, video_url,
             videoName tz (userIdOf a) (createdTimeOf a) (videoIdOf a),
             createdTimeOf a⟩]
    else
      imageListTasks tz (userIdOf a) (createdTimeOf a) (a.images.getD [])

/-- Fold `awemeTasks` over one item's `aweme_list` (an empty or missing
list contributes nothing, as the `if not aweme_list: continue` guard does). -/
def awemeListTasks (tz : Int) : List Aweme → Except Err (List Task)
  | [] => .ok []
  | a :: rest =>
    match awemeTasks tz a with
    | .error e => .error e
    | .ok t =>
      match awemeListTasks tz rest with
      | .error e => .error e
      | .ok ts => .ok (t ++ ts)

/-- The full classification pass of `process_data` over the parsed JSON
array (the file read and `json.loads` are outside the model), in download
order. -/
def processDataTasks (tz : Int) : List AwemeItem → Except Err (List Task)
  | [] => .ok []
  | it :: rest =>
    match awemeListTasks tz (it.aweme_list.getD []) with
    | .error e => .error e
    | .ok t =>
      match processDataTasks tz rest with
      | .error e => .error e
      | .ok ts => .ok (t ++ ts)

/-! ### StreamingFetcher: `download` / `_download_file_with_progress` -/

/-- The outcome of `httpx.stream("GET", url)` for one URL: a connect-time
`httpx.RequestError`, or a response with its status code, the body chunks
`iter_bytes` delivers before the stream either completes (`ok = true`) or
raises mid-stream (`ok = false`). -/
inductive NetOutcome
  | connectFail
  | resp (status : Nat) (chunks : List Bytes) (ok : Bool)
deriving DecidableEq, Repr

/-- The network, as a per-URL oracle. -/
abbrev Oracle := String → NetOutcome

/-- How one `download` call resolves. -/
inductive FetchResult
  | done
  | skipped
  | failedNetwork
  | failedStatus (code : Nat)
  | failedIncomplete
deriving DecidableEq, Repr

/-- `DouyinDownloader.download`, returning the filesystem afterwards, the
outcome, and the number of network requests made (`httpx.stream` calls):

* destination already exists → return at once, no request;
* connect error (`httpx.RequestError`) → `except` handler unlinks the temp
  file if it exists;
* non-200 status → plain `return` from inside the `with` block, before the
  temp file is ever opened;
* status 200 → `_download_file_with_progress` writes all delivered chunks
  to the temp path; if the stream completes, `os.rename(temp, save_path)`
  then `os.utime(save_path, (created_time, created_time))`; if it raises
  mid-stream, the `except Exception` handler unlinks the temp file. -/
def download (o : Oracle) (fs : FS) (t : Task) : FS × FetchResult × Nat :=
  if fsExists fs t.dest then
    (fs, .skipped, 0)
  else
    let temp := withSuffixPart t.dest
    match o t.url with
    | .connectFail =>
      ((if fsExists fs temp then fsRemove fs temp else fs), .failedNetwork, 1)
    | .resp status chunks ok =>
      if status ≠ 200 then
        (fs, .failedStatus status, 1)
      else
        let fs1 := fsWrite fs temp ⟨chunks.flatten, 0, 0⟩
        if ok then
          (fsWrite (fsRemove fs1 temp) t.dest
             ⟨chunks.flatten, t.createdAt, t.createdAt⟩, .done, 1)
        else
          ((if fsExists fs1 temp then fsRemove fs1 temp else fs1),
            .failedIncomplete, 1)

/-- `DouyinDownloader._download_if_not_exists`: the guard every call site
goes through before `download` (which re-checks). -/
def downloadIfNotExists (o : Oracle) (fs : FS) (t : Task) :
    FS × FetchResult × Nat :=
  if fsExists fs t.dest then
    (fs, .skipped, 0)
  else
    download o fs t

/-! ### BatchOrchestrator: running the task list -/

/-- Run the classified tasks in order, collecting results and the total
request count. -/
def runTasks (o : Oracle) : List Task → FS → FS × List FetchResult × Nat
  | [], fs => (fs, [], 0)
  | t :: ts, fs =>
    let s := downloadIfNotExists o fs t
    let rest := runTasks o ts s.1
    (rest.1, s.2.1 :: rest.2.1, s.2.2 + rest.2.2)

/-- One whole `process_data` run: classify everything (propagating the
uncaught `IndexError`, which aborts the batch) and perform the downloads. -/
def run (tz : Int) (o : Oracle) (fs : FS) (items : List AwemeItem) :
    Except Err (FS × List FetchResult × Nat) :=
  match processDataTasks tz items with
  | .error e => .error e
  | .ok ts => .ok (runTasks o ts fs)

/-! ### Basic filesystem lemmas -/

theorem lookup_fsRemove (fs : FS) (p q : String) :
    (fsRemove fs q).lookup p = if p = q then none else fs.lookup p := by
  induction fs with
  | nil => simp [fsRemove]
  | cons e rest ih =>
    obtain ⟨k, v⟩ := e
    by_cases he : k = q
    · subst he
      by_cases hp : p = k
      · subst hp
        simp [fsRemove, List.filter_cons, ih] at *
        simpa [fsRemove] using ih
      · simp only [fsRemove, List.filter_cons, ne_eq, decide_not] at ih ⊢
        simp [List.lookup, beq_false_of_ne hp, hp, ih]
    · by_cases hp : p = k
      · subst hp
        have hpq : ¬p = q := he
        simp only [fsRemove, List.filter_cons, ne_eq, decide_not] at ih ⊢
        simp [List.lookup, he, hpq]
      · simp only [fsRemove, List.filter_cons, ne_eq, decide_not] at ih ⊢
        simp [List.lookup, beq_false_of_ne hp, he, hp, ih]

theorem lookup_fsWrite (fs : FS) (p q : String) (d : FileData) :
    (fsWrite fs q d).lookup p = if p = q then some d else fs.lookup p := by
  by_cases hp : p = q
  · simp [fsWrite, List.lookup, hp]
  · simp [fsWrite, List.lookup, beq_false_of_ne hp, hp, lookup_fsRemove]

theorem fsExists_fsWrite (fs : FS) (p q : String) (d : FileData) :
    fsExists (fsWrite fs q d) p = (p = q || fsExists fs p) := by
  by_cases hp : p = q <;> simp [fsExists, lookup_fsWrite, hp]

theorem fsExists_fsRemove (fs : FS) (p q : String) :
    fsExists (fsRemove fs q) p = (p ≠ q && fsExists fs p) := by
  by_cases hp : p = q <;> simp [fsExists, lookup_fsRemove, hp]

/-! ### String lemmas about `withSuffixPart` -/

/-- A list with no `'.'` has no stem. -/
theorem stemChars_eq_none {l : List Char} (h : '.' ∉ l) :
    stemChars l = none := by
  induction l with
  | nil => rfl
  | cons c rest ih =>
    simp only [List.mem_cons, not_or] at h
    simp [stemChars, ih h.2, Ne.symm h.1]

/-- The stem of `xs ++ '.' :: ys` with `ys` dot-free is `xs`. -/
theorem stemChars_append {xs ys : List Char} (h : '.' ∉ ys) :
    stemChars (xs ++ '.' :: ys) = some xs := by
  induction xs with
  | nil => simp [stemChars, stemChars_eq_none h]
  | cons c rest ih => simp [stemChars, ih]

/-- On a leading character followed by `cs ++ '.' :: ys` with `ys`
dot-free, the stem is the leading character followed by `cs`. -/
theorem stemOrSelf_append (c : Char) (cs ys : List Char) (h : '.' ∉ ys) :
    stemOrSelf (c :: (cs ++ '.' :: ys)) = c :: cs := by
  simp [stemOrSelf, stemChars_append h]

/-- `with_suffix(".part")` on a name of the shape `base ++ "." ++ ext`
with a nonempty `base` and a dot-free `ext` replaces the extension:
the result is `base ++ ".part"`. -/
theorem withSuffixPart_append (base ext : String)
    (hbase : base.data ≠ []) (hext : '.' ∉ ext.data) :
    withSuffixPart (base ++ "." ++ ext) = base ++ ".part" := by
  unfold withSuffixPart
  obtain ⟨c, cs, hc⟩ : ∃ c cs, base.data = c :: cs := by
    cases hb : base.data with
    | nil => exact absurd hb hbase
    | cons c cs => exact ⟨c, cs, rfl⟩
  have hdata : (base ++ "." ++ ext).data = c :: (cs ++ '.' :: ext.data) := by
    simp [String.data_append, hc]
  rw [hdata, stemOrSelf_append c cs ext.data hext]
  have hb : String.mk (c :: cs) = base := by
    cases base with
    | mk l => exact congrArg String.mk hc.symm
  rw [hb]

/-- Strings built by appending suffixes whose final characters differ are
distinct. -/
theorem append_ne_of_last_ne (a b s u : String) (c c' : Char)
    (cs cs' : List Char) (hs : s.data.reverse = c :: cs)
    (hu : u.data.reverse = c' :: cs') (hne : c ≠ c') : a ++ s ≠ b ++ u := by
  intro h
  have hd : a.data ++ s.data = b.data ++ u.data := by
    have := congrArg String.data h
    simpa [String.data_append] using this
  have hr := congrArg List.reverse hd
  rw [List.reverse_append, List.reverse_append, hs, hu] at hr
  exact hne (List.head_eq_of_cons_eq hr)

/-- `withSuffixPart` for a name of the shape `base ++ s` where `s` starts
with the name's last dot. -/
theorem withSuffixPart_base (base s : String) (ys : List Char)
    (hbase : base.data ≠ []) (hs : s.data = '.' :: ys) (hys : '.' ∉ ys) :
    withSuffixPart (base ++ s) = base ++ ".part" := by
  unfold withSuffixPart
  obtain ⟨c, cs, hc⟩ : ∃ c cs, base.data = c :: cs := by
    cases hb : base.data with
    | nil => exact absurd hb hbase
    | cons c cs => exact ⟨c, cs, rfl⟩
  have hdata : (base ++ s).data = c :: (cs ++ '.' :: ys) := by
    simp [String.data_append, hc, hs]
  rw [hdata, stemOrSelf_append c cs ys hys]
  have hb : String.mk (c :: cs) = base := by
    cases base with
    | mk l => exact congrArg String.mk hc.symm
  rw [hb]

/-- The names of the three builders all have a nonempty base before their
final extension. -/
theorem builderBase_ne_nil (user_id : String) (ts suffix : String) :
    ("douyin_" ++ user_id ++ "_" ++ ts ++ "_" ++ suffix).data ≠ [] := by
  simp [String.data_append]

/-- A name ending in `".mp4"` never equals a name ending in `".part"`. -/
theorem mp4_ne_part (a b : String) : a ++ ".mp4" ≠ b ++ ".part" :=
  append_ne_of_last_ne a b ".mp4" ".part" '4' 't' ['p', 'm', '.']
    ['r', 'a', 'p', '.'] (by decide) (by decide) (by decide)

/-- A name ending in `".jpeg"` never equals a name ending in `".part"`. -/
theorem jpeg_ne_part (a b : String) : a ++ ".jpeg" ≠ b ++ ".part" :=
  append_ne_of_last_ne a b ".jpeg" ".part" 'g' 't' ['e', 'p', 'j', '.']
    ['r', 'a', 'p', '.'] (by decide) (by decide) (by decide)

/-- A name ending in `".mov"` never equals a name ending in `".part"`. -/
theorem mov_ne_part (a b : String) : a ++ ".mov" ≠ b ++ ".part" :=
  append_ne_of_last_ne a b ".mov" ".part" 'v' 't' ['o', 'm', '.']
    ['r', 'a', 'p', '.'] (by decide) (by decide) (by decide)

/-! ### Case analysis of `download` -/

/-- When the destination is absent, `download` resolves in exactly one of
four ways, fixed by the oracle's answer for the task's URL: connect
failure (leftover temp unlinked), non-200 status (nothing touched), full
stream (temp written, renamed onto the destination, `utime` applied with
the raw `createdAt`), or mid-stream failure (temp written then unlinked). -/
theorem download_cases (o : Oracle) (fs : FS) (t : Task)
    (h : fsExists fs t.dest = false) :
    (o t.url = .connectFail ∧
      download o fs t =
        ((if fsExists fs (withSuffixPart t.dest) then
            fsRemove fs (withSuffixPart t.dest) else fs),
          .failedNetwork, 1)) ∨
    (∃ status chunks ok, o t.url = .resp status chunks ok ∧ status ≠ 200 ∧
      download o fs t = (fs, .failedStatus status, 1)) ∨
    (∃ chunks, o t.url = .resp 200 chunks true ∧
      download o fs t =
        (fsWrite
            (fsRemove
              (fsWrite fs (withSuffixPart t.dest) ⟨chunks.flatten, 0, 0⟩)
              (withSuffixPart t.dest))
            t.dest ⟨chunks.flatten, t.createdAt, t.createdAt⟩,
          .done, 1)) ∨
    (∃ chunks, o t.url = .resp 200 chunks false ∧
      download o fs t =
        (fsRemove (fsWrite fs (withSuffixPart t.dest) ⟨chunks.flatten, 0, 0⟩)
            (withSuffixPart t.dest),
          .failedIncomplete, 1)) := by
  unfold download
  rw [h]
  cases ho : o t.url with
  | connectFail => exact Or.inl ⟨rfl, by simp⟩
  | resp status chunks ok =>
    by_cases hs : status = 200
    · subst hs
      cases ok with
      | true => exact Or.inr (Or.inr (Or.inl ⟨chunks, rfl, by simp⟩))
      | false =>
        refine Or.inr (Or.inr (Or.inr ⟨chunks, rfl, ?_⟩))
        have hex : fsExists
            (fsWrite fs (withSuffixPart t.dest) ⟨chunks.flatten, 0, 0⟩)
            (withSuffixPart t.dest) = true := by
          simp [fsExists_fsWrite]
        simp [hex]
    · exact Or.inr (Or.inl ⟨status, chunks, ok, rfl, hs, by simp [hs]⟩)

/-- With the destination absent, `_download_if_not_exists` just calls
`download`. -/
theorem downloadIfNotExists_eq (o : Oracle) (fs : FS) (t : Task)
    (h : fsExists fs t.dest = false) :
    downloadIfNotExists o fs t = download o fs t := by
  unfold downloadIfNotExists
  rw [h]
  simp

/-- With the destination present, both guards return `Skipped` at once, no
request made and the filesystem untouched. -/
theorem downloadIfNotExists_skip (o : Oracle) (fs : FS) (t : Task)
    (h : fsExists fs t.dest = true) :
    downloadIfNotExists o fs t = (fs, .skipped, 0) := by
  unfold downloadIfNotExists
  rw [h]
  simp

/-- With the destination absent, no branch of `download` answers
`Skipped`. -/
theorem download_not_skipped (o : Oracle) (fs : FS) (t : Task)
    (h : fsExists fs t.dest = false) :
    (downloadIfNotExists o fs t).2.1 ≠ .skipped := by
  rw [downloadIfNotExists_eq o fs t h]
  rcases download_cases o fs t h with ⟨_, heq⟩ | ⟨s, ch, ok, _, _, heq⟩ |
    ⟨ch, _, heq⟩ | ⟨ch, _, heq⟩ <;> simp [heq]

/-- A fetch resolves `Done` only when the oracle answered status 200 and
the stream ran to completion: the rename to the destination name sits
after the full chunk loop of `_download_file_with_progress`. -/
theorem done_implies_full_stream (o : Oracle) (fs : FS) (t : Task)
    (h : (downloadIfNotExists o fs t).2.1 = .done) :
    ∃ chunks, o t.url = .resp 200 chunks true := by
  cases hd : fsExists fs t.dest with
  | true => rw [downloadIfNotExists_skip o fs t hd] at h; exact absurd h (by simp)
  | false =>
    rw [downloadIfNotExists_eq o fs t hd] at h
    rcases download_cases o fs t hd with ⟨_, heq⟩ | ⟨s, ch, ok, _, _, heq⟩ |
      ⟨ch, ho, heq⟩ | ⟨ch, _, heq⟩ <;> rw [heq] at h
    · exact absurd h (by simp)
    · exact absurd h (by simp)
    · exact ⟨ch, ho⟩
    · exact absurd h (by simp)

/-- **C1**: for every fetch that fails — connect failure, non-success
status, or mid-stream error — once the fetch resolves neither the
destination path nor the temporary path carries a file (starting, as every
first attempt does, without a leftover temp file), and a partial body is
never promoted: `Done` requires the full stream. -/
theorem C1_failed_fetch_leaves_no_files :
    (∀ (o : Oracle) (fs : FS) (t : Task),
        fsExists fs (withSuffixPart t.dest) = false →
        (downloadIfNotExists o fs t).2.1 ≠ .done →
        (downloadIfNotExists o fs t).2.1 ≠ .skipped →
        fsExists (downloadIfNotExists o fs t).1 t.dest = false ∧
          fsExists (downloadIfNotExists o fs t).1 (withSuffixPart t.dest)
            = false) ∧
    (∀ (o : Oracle) (fs : FS) (t : Task),
        (downloadIfNotExists o fs t).2.1 = .done →
        ∃ chunks, o t.url = .resp 200 chunks true) := by
  constructor
  · intro o fs t htemp hdone hskip
    have hdest : fsExists fs t.dest = false := by
      cases hd : fsExists fs t.dest with
      | true =>
        rw [downloadIfNotExists_skip o fs t hd] at hskip
        exact absurd rfl hskip
      | false => rfl
    rw [downloadIfNotExists_eq o fs t hdest] at hdone ⊢
    rcases download_cases o fs t hdest with ⟨_, heq⟩ | ⟨s, ch, ok, _, _, heq⟩ |
      ⟨ch, _, heq⟩ | ⟨ch, _, heq⟩
    · rw [heq]; simp [htemp, hdest]
    · rw [heq]; exact ⟨hdest, htemp⟩
    · rw [heq] at hdone; exact absurd rfl hdone
    · rw [heq]
      by_cases hdt : t.dest = withSuffixPart t.dest
      · simp [fsExists_fsRemove, ← hdt]
      · simp [fsExists_fsRemove, fsExists_fsWrite, hdest, hdt]
  · exact done_implies_full_stream

/-- Closed instance of `C1_failed_fetch_leaves_no_files`: a connect
failure on an empty directory leaves no destination and no temp file, and
a completed fetch really did stream with status 200. -/
theorem C1_witness :
    (fsExists ([] : FS)
        (withSuffixPart (Task.mk Kind.video "u" "a.mp4" 5).dest) = false ∧
      fsExists (downloadIfNotExists (fun _ => NetOutcome.connectFail) []
          (Task.mk Kind.video "u" "a.mp4" 5)).1
          (Task.mk Kind.video "u" "a.mp4" 5).dest = false ∧
      fsExists (downloadIfNotExists (fun _ => NetOutcome.connectFail) []
          (Task.mk Kind.video "u" "a.mp4" 5)).1
          (withSuffixPart (Task.mk Kind.video "u" "a.mp4" 5).dest) = false) ∧
    (∃ chunks, ((fun _ => NetOutcome.resp 200 [[7]] true) : Oracle)
        (Task.mk Kind.video "u" "a.mp4" 5).url
        = NetOutcome.resp 200 chunks true) := by
  constructor
  · refine ⟨by decide, ?_⟩
    exact C1_failed_fetch_leaves_no_files.1 (fun _ => NetOutcome.connectFail)
      [] (Task.mk Kind.video "u" "a.mp4" 5) (by decide) (by decide) (by decide)
  · exact C1_failed_fetch_leaves_no_files.2
      (fun _ => NetOutcome.resp 200 [[7]] true) []
      (Task.mk Kind.video "u" "a.mp4" 5) (by decide)

/-- **C6**: the exists-so-skip test consults only the destination path —
a fetch is `Skipped` exactly when the destination exists; a filesystem
holding only the leftover temp file (whatever its bytes) never makes the
task skip; and the temp name differs from the destination name for every
name the three builders produce (different suffix). -/
theorem C6_skip_consults_only_destination :
    (∀ (o : Oracle) (fs : FS) (t : Task),
        ((downloadIfNotExists o fs t).2.1 = .skipped ↔
          fsExists fs t.dest = true)) ∧
    (∀ (o : Oracle) (t : Task) (d : FileData),
        withSuffixPart t.dest ≠ t.dest →
        (downloadIfNotExists o [(withSuffixPart t.dest, d)] t).2.1
          ≠ .skipped) ∧
    (∀ (tz : Int) (user_id : String) (ct : ℚ) (s : String),
        withSuffixPart (videoName tz user_id ct s) ≠ videoName tz user_id ct s) ∧
    (∀ (tz : Int) (user_id : String) (ct : ℚ) (s : String),
        withSuffixPart (imageName tz user_id ct s) ≠ imageName tz user_id ct s) ∧
    (∀ (tz : Int) (user_id : String) (ct : ℚ) (s : String),
        withSuffixPart (livePhotoName tz user_id ct s)
          ≠ livePhotoName tz user_id ct s) := by
  have hiff : ∀ (o : Oracle) (fs : FS) (t : Task),
      ((downloadIfNotExists o fs t).2.1 = .skipped ↔
        fsExists fs t.dest = true) := by
    intro o fs t
    cases hd : fsExists fs t.dest with
    | true => simp [downloadIfNotExists_skip o fs t hd]
    | false => simp [download_not_skipped o fs t hd]
  refine ⟨hiff, ?_, ?_, ?_, ?_⟩
  · intro o t d hne
    apply download_not_skipped
    simp [fsExists, List.lookup, beq_false_of_ne (fun h => hne h.symm)]
  · intro tz user_id ct s
    rw [show videoName tz user_id ct s =
        ("douyin_" ++ user_id ++ "_" ++ timestamp_to_str tz ct ++ "_" ++ s)
          ++ ".mp4" from rfl,
      withSuffixPart_base _ ".mp4" ['m', 'p', '4']
        (builderBase_ne_nil user_id (timestamp_to_str tz ct) s)
        (by decide) (by decide)]
    exact (mp4_ne_part _ _).symm
  · intro tz user_id ct s
    rw [show imageName tz user_id ct s =
        ("douyin_" ++ user_id ++ "_" ++ timestamp_to_str tz ct ++ "_" ++ s)
          ++ ".jpeg" from rfl,
      withSuffixPart_base _ ".jpeg" ['j', 'p', 'e', 'g']
        (builderBase_ne_nil user_id (timestamp_to_str tz ct) s)
        (by decide) (by decide)]
    exact (jpeg_ne_part _ _).symm
  · intro tz user_id ct s
    rw [show livePhotoName tz user_id ct s =
        ("douyin_" ++ user_id ++ "_" ++ timestamp_to_str tz ct ++ "_" ++ s)
          ++ ".mov" from rfl,
      withSuffixPart_base _ ".mov" ['m', 'o', 'v']
        (builderBase_ne_nil user_id (timestamp_to_str tz ct) s)
        (by decide) (by decide)]
    exact (mov_ne_part _ _).symm

/-- Closed instance of `C6_skip_consults_only_destination`: with only the
temp file `a.part` on disk, the fetch for destination `a.mp4` is not
skipped. -/
theorem C6_witness :
    withSuffixPart (Task.mk Kind.video "u" "a.mp4" 5).dest
        ≠ (Task.mk Kind.video "u" "a.mp4" 5).dest ∧
    (downloadIfNotExists (fun _ => NetOutcome.connectFail)
        [(withSuffixPart (Task.mk Kind.video "u" "a.mp4" 5).dest,
          FileData.mk [9] 0 0)]
        (Task.mk Kind.video "u" "a.mp4" 5)).2.1 ≠ .skipped := by
  refine ⟨by decide, ?_⟩
  exact C6_skip_consults_only_destination.2.1
    (fun _ => NetOutcome.connectFail) (Task.mk Kind.video "u" "a.mp4" 5)
    (FileData.mk [9] 0 0) (by decide)

/-- **C10**: a fetch writes and promotes a file only for status exactly
200: any other status (201, 206, redirects, …) returns a status failure
with the filesystem untouched; `Done` implies the status was 200; and a
200 response whose stream completes does promote the destination. -/
theorem C10_only_exact_200_writes :
    (∀ (o : Oracle) (fs : FS) (t : Task) (status : Nat) (chunks : List Bytes)
        (ok : Bool),
        o t.url = .resp status chunks ok → status ≠ 200 →
        fsExists fs t.dest = false →
        downloadIfNotExists o fs t = (fs, .failedStatus status, 1)) ∧
    (∀ (o : Oracle) (fs : FS) (t : Task),
        (downloadIfNotExists o fs t).2.1 = .done →
        ∃ chunks, o t.url = .resp 200 chunks true) ∧
    (∀ (o : Oracle) (fs : FS) (t : Task) (chunks : List Bytes),
        o t.url = .resp 200 chunks true → fsExists fs t.dest = false →
        (downloadIfNotExists o fs t).2.1 = .done ∧
        fsExists (downloadIfNotExists o fs t).1 t.dest = true) := by
  refine ⟨?_, done_implies_full_stream, ?_⟩
  · intro o fs t status chunks ok ho hs hdest
    rw [downloadIfNotExists_eq o fs t hdest]
    unfold download
    rw [hdest, ho]
    simp [hs]
  · intro o fs t chunks ho hdest
    rw [downloadIfNotExists_eq o fs t hdest]
    unfold download
    rw [hdest, ho]
    simp [fsExists_fsWrite]

/-- Closed instance of `C10_only_exact_200_writes`: a 201 response fails
and leaves the directory untouched; a 200 response that completes
promotes the file. -/
theorem C10_witness :
    downloadIfNotExists (fun _ => NetOutcome.resp 201 [[7]] true) []
        (Task.mk Kind.video "u" "a.mp4" 5) = ([], .failedStatus 201, 1) ∧
    ((downloadIfNotExists (fun _ => NetOutcome.resp 200 [[7]] true) []
        (Task.mk Kind.video "u" "a.mp4" 5)).2.1 = .done ∧
      fsExists (downloadIfNotExists (fun _ => NetOutcome.resp 200 [[7]] true)
          [] (Task.mk Kind.video "u" "a.mp4" 5)).1
          (Task.mk Kind.video "u" "a.mp4" 5).dest = true) := by
  constructor
  · exact C10_only_exact_200_writes.1 (fun _ => NetOutcome.resp 201 [[7]] true)
      [] (Task.mk Kind.video "u" "a.mp4" 5) 201 [[7]] true (by decide)
      (by decide) (by decide)
  · exact C10_only_exact_200_writes.2.2
      (fun _ => NetOutcome.resp 200 [[7]] true) []
      (Task.mk Kind.video "u" "a.mp4" 5) [[7]] (by decide) (by decide)

/-- **C5, counterexample**: the claim says the destination's times are set
to the creation timestamp *in seconds* (the normalized value) also when
the manifest supplied milliseconds.  The code passes the raw
`created_time` straight to `os.utime`: for `createdAt = 1700000000000`
(milliseconds) the resulting mtime is `1700000000000`, while the
normalized value is `1700000000` — a different number. -/
theorem C5_counterexample :
    ((download (fun _ => NetOutcome.resp 200 [[7]] true) []
        (Task.mk Kind.video "http://v" "a.mp4" 1700000000000)).1.lookup
        "a.mp4"
      = some (FileData.mk [7] 1700000000000 1700000000000)) ∧
    timestampNormalize 1700000000000 = 1700000000 ∧
    (1700000000000 : ℚ) ≠ (1700000000 : ℚ) := by
  refine ⟨by decide, ?_, by norm_num⟩
  unfold timestampNormalize
  norm_num

/-- **C5 (amended)**: for every fetch that completes its stream, the temp
file is renamed onto the destination and both the access and the
modification time of the destination are set to the task's **raw**
creation timestamp, exactly as the manifest supplied it — no millisecond
normalization is applied at this point (only the file *name* uses the
normalized value). -/
theorem C5_success_renames_and_applies_raw_time :
    ∀ (o : Oracle) (fs : FS) (t : Task) (chunks : List Bytes),
      o t.url = NetOutcome.resp 200 chunks true →
      fsExists fs t.dest = false →
      withSuffixPart t.dest ≠ t.dest →
      (downloadIfNotExists o fs t).2.1 = .done ∧
      ((downloadIfNotExists o fs t).1.lookup t.dest =
        some (FileData.mk chunks.flatten t.createdAt t.createdAt)) ∧
      fsExists (downloadIfNotExists o fs t).1 (withSuffixPart t.dest)
        = false := by
  intro o fs t chunks ho hdest hne
  rw [downloadIfNotExists_eq o fs t hdest]
  rcases download_cases o fs t hdest with ⟨hc, _⟩ | ⟨s, ch, ok, hc, hs, _⟩ |
    ⟨ch, hc, heq⟩ | ⟨ch, hc, _⟩
  · rw [ho] at hc; exact absurd hc (by simp)
  · rw [ho] at hc
    have : s = 200 := by injection hc with h1 h2 h3; exact h1.symm
    exact absurd this hs
  · have hch : ch = chunks := by
      rw [ho] at hc
      injection hc with h1 h2 h3
      exact h2.symm
    subst hch
    rw [heq]
    refine ⟨rfl, ?_, ?_⟩
    · rw [lookup_fsWrite]; simp
    · rw [fsExists_fsWrite, fsExists_fsRemove]
      simp [hne]
  · rw [ho] at hc
    injection hc with h1 h2 h3
    exact absurd h3.symm (by simp)

/-- Closed instance of `C5_success_renames_and_applies_raw_time` at a
millisecond timestamp. -/
theorem C5_witness :
    ((fun _ => NetOutcome.resp 200 [[7]] true) : Oracle)
        (Task.mk Kind.video "http://v" "a.mp4" 1700000000000).url
      = NetOutcome.resp 200 [[7]] true ∧
    ((downloadIfNotExists (fun _ => NetOutcome.resp 200 [[7]] true) []
        (Task.mk Kind.video "http://v" "a.mp4" 1700000000000)).2.1 = .done ∧
      ((downloadIfNotExists (fun _ => NetOutcome.resp 200 [[7]] true) []
          (Task.mk Kind.video "http://v" "a.mp4" 1700000000000)).1.lookup
          "a.mp4"
        = some (FileData.mk [7] 1700000000000 1700000000000))) := by
  refine ⟨rfl, ?_⟩
  have h := C5_success_renames_and_applies_raw_time
    (fun _ => NetOutcome.resp 200 [[7]] true) []
    (Task.mk Kind.video "http://v" "a.mp4" 1700000000000) [[7]]
    rfl (by decide) (by decide)
  exact ⟨h.1, h.2.1⟩

/-- **C7**: `timestamp_to_str`'s normalization divides by 1000 exactly
when the raw value exceeds `1e10` and otherwise leaves it unchanged;
formatting yields the fixed 14-digit `YYYYMMDDHHMMSS` layout; and the
millisecond input `1700000000000` and the second input `1700000000`
format to the same string (at every timezone offset). -/
theorem C7_normalize_and_format :
    (∀ raw : ℚ, 10000000000 < raw → timestampNormalize raw = raw / 1000) ∧
    (∀ raw : ℚ, ¬(10000000000 < raw) → timestampNormalize raw = raw) ∧
    (∀ tz : Int,
      timestamp_to_str tz 1700000000000 = timestamp_to_str tz 1700000000) ∧
    ((timestamp_to_str 0 1700000000).length = 14 ∧
      (timestamp_to_str 0 1700000000).data.all Char.isDigit = true) := by
  refine ⟨?_, ?_, ?_, ?_, ?_⟩
  · intro raw h
    unfold timestampNormalize
    rw [if_pos h]
  · intro raw h
    unfold timestampNormalize
    rw [if_neg h]
  · intro tz
    unfold timestamp_to_str
    have h1 : timestampNormalize 1700000000000 = 1700000000 := by
      unfold timestampNormalize
      norm_num
    have h2 : timestampNormalize 1700000000 = 1700000000 := by
      unfold timestampNormalize
      norm_num
    rw [h1, h2]
  · decide
  · decide

/-- Closed instance of `C7_normalize_and_format`: `20000000000` is treated
as milliseconds, `5` as seconds. -/
theorem C7_witness :
    ((10000000000 : ℚ) < 20000000000 ∧
      timestampNormalize 20000000000 = 20000000000 / 1000) ∧
    (¬((10000000000 : ℚ) < 5) ∧ timestampNormalize 5 = 5) :=
  ⟨⟨by norm_num, C7_normalize_and_format.1 20000000000 (by norm_num)⟩,
   ⟨by norm_num, C7_normalize_and_format.2.1 5 (by norm_num)⟩⟩

/-! ### Concrete records for witnesses -/

/-- An image carrying a valid live-photo identifier (the spec's §8
example). -/
def c3Item : ImageItem :=
  ⟨some "a/b123.jpg", some ["http://x/b123.jpg"],
    some ⟨some ⟨some "ABC123", some ["http://x/abc.mov"]⟩⟩⟩

/-- A record whose video identifier is empty (fails validation) and whose
single image is `c3Item`. -/
def c3Aweme : Aweme :=
  ⟨some ⟨some "u1"⟩, some 1700000000000, some ⟨some ⟨some "", none⟩⟩,
    some [c3Item]⟩

/-- A plain valid video record. -/
def goodAweme : Aweme :=
  ⟨some ⟨some "u2"⟩, some 1700000000,
    some ⟨some ⟨some "def456", some ["http://ok"]⟩⟩, none⟩

/-- A record with a *valid* video identifier but a present-and-empty
`url_list`: `url_list[0]` raises `IndexError` in the source. -/
def badVideoAweme : Aweme :=
  ⟨some ⟨some "u1"⟩, some 1700000000, some ⟨some ⟨some "abc123", some []⟩⟩,
    none⟩

/-- **C4**: the claim says a record with a validated video identifier and
an empty video URL sequence is logged and skipped and never throws past
the record boundary.  The code instead evaluates
`aweme.get("video", \x7b\x7d).get("play_addr", \x7b\x7d).get("url_list", [""])[0]`
before the branch; on a present-but-empty `url_list` the `[0]` raises an
uncaught `IndexError` that aborts the whole batch — the following record
(which on its own classifies fine) is never processed. -/
theorem C4_empty_video_url_list_aborts_batch :
    is_valid_video_id (videoIdOf badVideoAweme) = true ∧
    videoUrlListOf badVideoAweme = [] ∧
    awemeTasks 0 badVideoAweme = .error .indexError ∧
    awemeTasks 0 goodAweme = .ok
      [⟨.video, "http://ok", "douyin_u2_20231114221320_def456.mp4",
         1700000000⟩] ∧
    processDataTasks 0 [⟨some [badVideoAweme, goodAweme]⟩]
      = .error .indexError ∧
    run 0 (fun _ => NetOutcome.resp 200 [[7]] true) []
      [⟨some [badVideoAweme, goodAweme]⟩] = .error .indexError := by
  refine ⟨by decide, by decide, by decide, by decide, by decide, by decide⟩

/-- **C3**: for a record whose video identifier fails validation and whose
image list is one image with a nonempty URL list and a valid live-photo
identifier (and whose indexed URL lists are nonempty, so the `[0]`
accesses are in range), classification emits exactly two tasks: the
`LivePhotoClip` from `livePhoto.urls[0]` named `<live id>.mov`, then the
`Image` from the last element of the image's `url_list` named
`<same live id>.jpeg`. -/
theorem C3_live_photo_pair (tz : Int) (a : Aweme) (item : ImageItem)
    (hvid : is_valid_video_id (videoIdOf a) = false)
    (hvurl : videoUrlListOf a ≠ [])
    (himgs : a.images.getD [] = [item])
    (hurl : item.url_list.getD [] ≠ [])
    (hlp : is_valid_video_id (livePhotoUriOf item) = true)
    (hlpu : livePhotoUrlListOf item ≠ []) :
    awemeTasks tz a = .ok
      [⟨.liveClip, (livePhotoUrlListOf item).headD "",
         livePhotoName tz (userIdOf a) (createdTimeOf a) (livePhotoUriOf item),
         createdTimeOf a⟩,
       ⟨.image, (item.url_list.getD []).getLastD "",
         imageName tz (userIdOf a) (createdTimeOf a) (livePhotoUriOf item),
         createdTimeOf a⟩] := by
  obtain ⟨vu, vus, hv⟩ := List.exists_cons_of_ne_nil hvurl
  obtain ⟨u, us, hu⟩ := List.exists_cons_of_ne_nil hurl
  obtain ⟨lu, lus, hl⟩ := List.exists_cons_of_ne_nil hlpu
  have h1 : (livePhotoUriOf item != "") = true := by
    cases hne : (livePhotoUriOf item != "") with
    | true => rfl
    | false =>
      unfold is_valid_video_id at hlp
      rw [hne] at hlp
      simp at hlp
  have hcond : (livePhotoUriOf item != "" &&
      is_valid_video_id (livePhotoUriOf item)) = true := by
    rw [h1, hlp]
    rfl
  unfold awemeTasks
  rw [hv, hvid]
  simp only [Bool.false_eq_true, if_false]
  rw [himgs]
  simp only [imageListTasks, imageItemTasks, hu, hl, hcond, if_true]
  simp [hu, hl]

/-- Closed instance of `C3_live_photo_pair` on the spec's §8 example
record. -/
theorem C3_witness :
    (is_valid_video_id (videoIdOf c3Aweme) = false ∧
      videoUrlListOf c3Aweme ≠ [] ∧
      c3Aweme.images.getD [] = [c3Item] ∧
      c3Item.url_list.getD [] ≠ [] ∧
      is_valid_video_id (livePhotoUriOf c3Item) = true ∧
      livePhotoUrlListOf c3Item ≠ []) ∧
    awemeTasks 0 c3Aweme = .ok
      [⟨.liveClip, (livePhotoUrlListOf c3Item).headD "",
         livePhotoName 0 (userIdOf c3Aweme) (createdTimeOf c3Aweme)
           (livePhotoUriOf c3Item),
         createdTimeOf c3Aweme⟩,
       ⟨.image, (c3Item.url_list.getD []).getLastD "",
         imageName 0 (userIdOf c3Aweme) (createdTimeOf c3Aweme)
           (livePhotoUriOf c3Item),
         createdTimeOf c3Aweme⟩] :=
  ⟨⟨by decide, by decide, by decide, by decide, by decide, by decide⟩,
    C3_live_photo_pair 0 c3Aweme c3Item (by decide) (by decide) (by decide)
      (by decide) (by decide) (by decide)⟩

/-! ### The destination name as a pure function of its four inputs -/

/-- The extension each task kind gets. -/
def extOf : Kind → String
  | .video => ".mp4"
  | .image => ".jpeg"
  | .liveClip => ".mov"

/-- The spec's NameBuilder: a destination name as a pure function of
`(kind, authorId, createdAt, suffix-or-identifier)` — nothing else. -/
def buildName (tz : Int) (k : Kind) (authorId : String) (createdAt : ℚ)
    (s : String) : String :=
  "douyin_" ++ authorId ++ "_" ++ timestamp_to_str tz createdAt ++ "_" ++ s
    ++ extOf k

/-- Every task one image contributes carries the record's timestamp and a
destination that is `buildName` of the four inputs. -/
theorem imageItemTasks_shape (tz : Int) (user_id : String) (ct : ℚ)
    (item : ImageItem) (ts : List Task)
    (h : imageItemTasks tz user_id ct item = .ok ts) :
    ∀ t ∈ ts, t.createdAt = ct ∧
      ∃ s, t.dest = buildName tz t.kind user_id ct s := by
  unfold imageItemTasks at h
  split at h
  · injection h with h'
    subst h'
    intro t ht
    simp at ht
  · split at h
    · split at h
      · simp at h
      · injection h with h'
        subst h'
        intro t ht
        simp only [List.mem_cons, List.not_mem_nil, or_false] at ht
        rcases ht with rfl | rfl
        · exact ⟨rfl, livePhotoUriOf item, rfl⟩
        · exact ⟨rfl, livePhotoUriOf item, rfl⟩
    · injection h with h'
      subst h'
      intro t ht
      simp only [List.mem_cons, List.not_mem_nil, or_false] at ht
      subst ht
      exact ⟨rfl, lastSegment (item.uri.getD ""), rfl⟩

/-- `imageItemTasks_shape` lifted over the image list. -/
theorem imageListTasks_shape (tz : Int) (user_id : String) (ct : ℚ) :
    ∀ (items : List ImageItem) (ts : List Task),
      imageListTasks tz user_id ct items = .ok ts →
      ∀ t ∈ ts, t.createdAt = ct ∧
        ∃ s, t.dest = buildName tz t.kind user_id ct s := by
  intro items
  induction items with
  | nil =>
    intro ts h t ht
    unfold imageListTasks at h
    injection h with h'
    subst h'
    simp at ht
  | cons item rest ih =>
    intro ts h t ht
    unfold imageListTasks at h
    cases hitem : imageItemTasks tz user_id ct item with
    | error e => rw [hitem] at h; simp at h
    | ok t1 =>
      rw [hitem] at h
      cases hrest : imageListTasks tz user_id ct rest with
      | error e => rw [hrest] at h; simp at h
      | ok ts1 =>
        rw [hrest] at h
        injection h with h'
        subst h'
        rcases List.mem_append.mp ht with h1 | h2
        · exact imageItemTasks_shape tz user_id ct item t1 hitem t h1
        · exact ih ts1 hrest t h2

/-- Every task one record contributes carries the record's timestamp and
a destination that is `buildName` of the record's author id, timestamp
and a record-derived suffix. -/
theorem awemeTasks_shape (tz : Int) (a : Aweme) (ts : List Task)
    (h : awemeTasks tz a = .ok ts) :
    ∀ t ∈ ts, t.createdAt = createdTimeOf a ∧
      ∃ s, t.dest = buildName tz t.kind (userIdOf a) (createdTimeOf a) s := by
  unfold awemeTasks at h
  split at h
  · simp at h
  · split at h
    · injection h with h'
      subst h'
      intro t ht
      simp only [List.mem_cons, List.not_mem_nil, or_false] at ht
      subst ht
      exact ⟨rfl, videoIdOf a, rfl⟩
    · exact imageListTasks_shape tz (userIdOf a) (createdTimeOf a)
        (a.images.getD []) ts h

/-- **C8**: classification is deterministic — the task list of a record
is a function of the record, so classifying twice yields identical
destination paths — and every destination path is `buildName` applied to
`(kind, authorId, createdAt, suffix-or-identifier)` alone, with the
task's timestamp taken from the record. -/
theorem C8_dest_pure_function (tz : Int) (a : Aweme) (ts : List Task)
    (h : awemeTasks tz a = .ok ts) :
    (∀ ts', awemeTasks tz a = .ok ts' → ts' = ts) ∧
    ∀ t ∈ ts, t.createdAt = createdTimeOf a ∧
      ∃ s, t.dest = buildName tz t.kind (userIdOf a) (createdTimeOf a) s := by
  refine ⟨?_, awemeTasks_shape tz a ts h⟩
  intro ts' h'
  rw [h] at h'
  injection h' with h''
  exact h''.symm

/-- Closed instance of `C8_dest_pure_function` on a plain video record. -/
theorem C8_witness :
    awemeTasks 0 goodAweme = .ok
      [⟨.video, "http://ok", "douyin_u2_20231114221320_def456.mp4",
         1700000000⟩] ∧
    (∀ ts', awemeTasks 0 goodAweme = .ok ts' →
      ts' = [⟨.video, "http://ok", "douyin_u2_20231114221320_def456.mp4",
         1700000000⟩]) ∧
    ∀ t ∈ [(⟨.video, "http://ok", "douyin_u2_20231114221320_def456.mp4",
        1700000000⟩ : Task)],
      t.createdAt = createdTimeOf goodAweme ∧
      ∃ s, t.dest = buildName 0 t.kind (userIdOf goodAweme)
        (createdTimeOf goodAweme) s := by
  have h : awemeTasks 0 goodAweme = .ok
      [⟨.video, "http://ok", "douyin_u2_20231114221320_def456.mp4",
         1700000000⟩] := by decide
  have h2 := C8_dest_pure_function 0 goodAweme _ h
  exact ⟨h, h2.1, h2.2⟩

/-- **C9**: the temporary path replaces the destination's extension with
`.part` rather than appending; hence the live-photo clip (`.mov`) and its
paired image (`.jpeg`), which share author, timestamp and identifier,
have the *same* temporary path — and in general any two names sharing a
base and differing only in their (dot-free) extension do. -/
theorem C9_temp_replaces_extension :
    (∀ (tz : Int) (user_id : String) (ct : ℚ) (idf : String),
        withSuffixPart (livePhotoName tz user_id ct idf) =
          ("douyin_" ++ user_id ++ "_" ++ timestamp_to_str tz ct ++ "_" ++
            idf) ++ ".part" ∧
        withSuffixPart (imageName tz user_id ct idf) =
          ("douyin_" ++ user_id ++ "_" ++ timestamp_to_str tz ct ++ "_" ++
            idf) ++ ".part" ∧
        withSuffixPart (livePhotoName tz user_id ct idf) =
          withSuffixPart (imageName tz user_id ct idf)) ∧
    (∀ (base e1 e2 : String) (ys1 ys2 : List Char),
        base.data ≠ [] → e1.data = '.' :: ys1 → '.' ∉ ys1 →
        e2.data = '.' :: ys2 → '.' ∉ ys2 →
        withSuffixPart (base ++ e1) = withSuffixPart (base ++ e2)) := by
  constructor
  · intro tz user_id ct idf
    have hbase := builderBase_ne_nil user_id (timestamp_to_str tz ct) idf
    have h1 : withSuffixPart (livePhotoName tz user_id ct idf) =
        ("douyin_" ++ user_id ++ "_" ++ timestamp_to_str tz ct ++ "_" ++
          idf) ++ ".part" :=
      withSuffixPart_base _ ".mov" ['m', 'o', 'v'] hbase (by decide)
        (by decide)
    have h2 : withSuffixPart (imageName tz user_id ct idf) =
        ("douyin_" ++ user_id ++ "_" ++ timestamp_to_str tz ct ++ "_" ++
          idf) ++ ".part" :=
      withSuffixPart_base _ ".jpeg" ['j', 'p', 'e', 'g'] hbase (by decide)
        (by decide)
    exact ⟨h1, h2, h1.trans h2.symm⟩
  · intro base e1 e2 ys1 ys2 hb h1 hy1 h2 hy2
    rw [withSuffixPart_base base e1 ys1 hb h1 hy1,
      withSuffixPart_base base e2 ys2 hb h2 hy2]

/-- Closed instance of `C9_temp_replaces_extension`: `a.mov` and `a.jpeg`
share the temp path `a.part`. -/
theorem C9_witness :
    (("a" : String).data ≠ [] ∧
      (".mov" : String).data = '.' :: ['m', 'o', 'v'] ∧
      ('.' ∉ (['m', 'o', 'v'] : List Char)) ∧
      (".jpeg" : String).data = '.' :: ['j', 'p', 'e', 'g'] ∧
      ('.' ∉ (['j', 'p', 'e', 'g'] : List Char))) ∧
    withSuffixPart ("a" ++ ".mov") = withSuffixPart ("a" ++ ".jpeg") :=
  ⟨⟨by decide, by decide, by decide, by decide, by decide⟩,
    C9_temp_replaces_extension.2 "a" ".mov" ".jpeg" ['m', 'o', 'v']
      ['j', 'p', 'e', 'g'] (by decide) (by decide) (by decide) (by decide)
      (by decide)⟩

/-! ### Idempotence of a second run -/

/-- A name of the temp-file shape `… ++ ".part"`. -/
def IsPartName (p : String) : Prop :=
  ∃ b, p = b ++ ".part"

theorem withSuffixPart_isPartName (name : String) :
    IsPartName (withSuffixPart name) :=
  ⟨String.mk (stemOrSelf name.data), rfl⟩

/-- No built destination name has the temp-file shape: its extension is
`.mp4`, `.jpeg` or `.mov`, never `.part`. -/
theorem buildName_not_part (tz : Int) (k : Kind) (uid : String) (ct : ℚ)
    (s : String) : ¬ IsPartName (buildName tz k uid ct s) := by
  rintro ⟨b, hb⟩
  cases k with
  | video => exact mp4_ne_part _ b hb
  | image => exact jpeg_ne_part _ b hb
  | liveClip => exact mov_ne_part _ b hb

/-- One fetch never disturbs an existing file whose name is not a
temp-file name: `download` writes or unlinks only the task's own temp
path, and writes the destination only when it was absent. -/
theorem download_preserves_lookup (o : Oracle) (fs : FS) (t : Task)
    (p : String) (d : FileData) (hp : fs.lookup p = some d)
    (hnp : ¬ IsPartName p) :
    (downloadIfNotExists o fs t).1.lookup p = some d := by
  have hpt : p ≠ withSuffixPart t.dest := fun h =>
    hnp (h ▸ withSuffixPart_isPartName t.dest)
  cases hd : fsExists fs t.dest with
  | true => rw [downloadIfNotExists_skip o fs t hd]; exact hp
  | false =>
    have hpd : p ≠ t.dest := by
      intro h
      rw [h] at hp
      rw [fsExists, hp] at hd
      simp at hd
    rw [downloadIfNotExists_eq o fs t hd]
    rcases download_cases o fs t hd with ⟨_, heq⟩ | ⟨st, ch, ok, _, _, heq⟩ |
      ⟨ch, _, heq⟩ | ⟨ch, _, heq⟩ <;> rw [heq] <;> dsimp only
    · split
      · rw [lookup_fsRemove, if_neg hpt]; exact hp
      · exact hp
    · exact hp
    · rw [lookup_fsWrite, if_neg hpd, lookup_fsRemove, if_neg hpt,
        lookup_fsWrite, if_neg hpt]
      exact hp
    · rw [lookup_fsRemove, if_neg hpt, lookup_fsWrite, if_neg hpt]
      exact hp

/-- `download_preserves_lookup` lifted over a task list. -/
theorem runTasks_preserves_lookup (o : Oracle) :
    ∀ (ts : List Task) (fs : FS) (p : String) (d : FileData),
      fs.lookup p = some d → ¬ IsPartName p →
      (runTasks o ts fs).1.lookup p = some d := by
  intro ts
  induction ts with
  | nil => intro fs p d hp _; exact hp
  | cons t rest ih =>
    intro fs p d hp hnp
    exact ih _ p d (download_preserves_lookup o fs t p d hp hnp) hnp

/-- A fetch that resolved `Done` or `Skipped` leaves a file at the
destination. -/
theorem download_done_or_skipped_dest_exists (o : Oracle) (fs : FS)
    (t : Task)
    (h : (downloadIfNotExists o fs t).2.1 = .done ∨
      (downloadIfNotExists o fs t).2.1 = .skipped) :
    ∃ d, (downloadIfNotExists o fs t).1.lookup t.dest = some d := by
  cases hd : fsExists fs t.dest with
  | true =>
    rw [downloadIfNotExists_skip o fs t hd]
    rw [fsExists] at hd
    exact Option.isSome_iff_exists.mp hd
  | false =>
    rw [downloadIfNotExists_eq o fs t hd] at h ⊢
    rcases download_cases o fs t hd with ⟨_, heq⟩ | ⟨st, ch, ok, _, _, heq⟩ |
      ⟨ch, _, heq⟩ | ⟨ch, _, heq⟩ <;> rw [heq] at h ⊢ <;> dsimp only at h ⊢
    · rcases h with h | h <;> simp at h
    · rcases h with h | h <;> simp at h
    · exact ⟨_, by rw [lookup_fsWrite, if_pos rfl]⟩
    · rcases h with h | h <;> simp at h

/-- After a run in which every task resolved `Done` or `Skipped`, every
task's destination exists (given that no destination carries a temp-file
name). -/
theorem runTasks_dest_exists (o : Oracle) :
    ∀ (ts : List Task) (fs : FS),
      (∀ r ∈ (runTasks o ts fs).2.1, r = .done ∨ r = .skipped) →
      (∀ t ∈ ts, ¬ IsPartName t.dest) →
      ∀ t ∈ ts, fsExists (runTasks o ts fs).1 t.dest = true := by
  intro ts
  induction ts with
  | nil => intro fs _ _ t ht; simp at ht
  | cons t0 rest ih =>
    intro fs hr hnp t ht
    have hcons : (runTasks o (t0 :: rest) fs).2.1 =
        (downloadIfNotExists o fs t0).2.1 ::
          (runTasks o rest (downloadIfNotExists o fs t0).1).2.1 := rfl
    have hfst : (runTasks o (t0 :: rest) fs).1 =
        (runTasks o rest (downloadIfNotExists o fs t0).1).1 := rfl
    rw [hcons] at hr
    rcases List.mem_cons.mp ht with rfl | ht'
    · have h0 := hr _ (List.mem_cons_self _ _)
      obtain ⟨d, hd⟩ := download_done_or_skipped_dest_exists o fs t h0
      rw [hfst, fsExists,
        runTasks_preserves_lookup o rest _ t.dest d hd
          (hnp t (List.mem_cons_self _ _))]
      rfl
    · rw [hfst]
      exact ih _ (fun r hrr => hr r (List.mem_cons_of_mem _ hrr))
        (fun t' ht'' => hnp t' (List.mem_cons_of_mem _ ht'')) t ht'

/-- When every destination already exists, the whole run changes nothing:
every task is `Skipped` and zero requests are made. -/
theorem runTasks_all_skip (o : Oracle) :
    ∀ (ts : List Task) (fs : FS),
      (∀ t ∈ ts, fsExists fs t.dest = true) →
      runTasks o ts fs = (fs, ts.map (fun _ => FetchResult.skipped), 0) := by
  intro ts
  induction ts with
  | nil => intro fs _; rfl
  | cons t0 rest ih =>
    intro fs hall
    have h0 := downloadIfNotExists_skip o fs t0
      (hall t0 (List.mem_cons_self _ _))
    unfold runTasks
    rw [h0]
    dsimp only
    rw [ih fs (fun t ht => hall t (List.mem_cons_of_mem _ ht))]
    simp

/-- Every task a record list contributes has a `buildName`-shaped
destination. -/
theorem awemeListTasks_goodDest (tz : Int) :
    ∀ (las : List Aweme) (ts : List Task),
      awemeListTasks tz las = .ok ts →
      ∀ t ∈ ts, ∃ uid ct s, t.dest = buildName tz t.kind uid ct s := by
  intro las
  induction las with
  | nil =>
    intro ts h t ht
    unfold awemeListTasks at h
    injection h with h'
    subst h'
    simp at ht
  | cons a rest ih =>
    intro ts h t ht
    unfold awemeListTasks at h
    cases ha : awemeTasks tz a with
    | error e => rw [ha] at h; simp at h
    | ok t1 =>
      rw [ha] at h
      cases hrest : awemeListTasks tz rest with
      | error e => rw [hrest] at h; simp at h
      | ok ts1 =>
        rw [hrest] at h
        injection h with h'
        subst h'
        rcases List.mem_append.mp ht with h1 | h2
        · obtain ⟨hct, s, hs⟩ := awemeTasks_shape tz a t1 ha t h1
          exact ⟨userIdOf a, createdTimeOf a, s, hs⟩
        · exact ih ts1 hrest t h2

/-- Every task the whole manifest contributes has a `buildName`-shaped
destination. -/
theorem processDataTasks_goodDest (tz : Int) :
    ∀ (items : List AwemeItem) (ts : List Task),
      processDataTasks tz items = .ok ts →
      ∀ t ∈ ts, ∃ uid ct s, t.dest = buildName tz t.kind uid ct s := by
  intro items
  induction items with
  | nil =>
    intro ts h t ht
    unfold processDataTasks at h
    injection h with h'
    subst h'
    simp at ht
  | cons it rest ih =>
    intro ts h t ht
    unfold processDataTasks at h
    cases ha : awemeListTasks tz (it.aweme_list.getD []) with
    | error e => rw [ha] at h; simp at h
    | ok t1 =>
      rw [ha] at h
      cases hrest : processDataTasks tz rest with
      | error e => rw [hrest] at h; simp at h
      | ok ts1 =>
        rw [hrest] at h
        injection h with h'
        subst h'
        rcases List.mem_append.mp ht with h1 | h2
        · exact awemeListTasks_goodDest tz _ t1 ha t h1
        · exact ih ts1 hrest t h2

/-- A run produces one result per task. -/
theorem runTasks_length (o : Oracle) :
    ∀ (ts : List Task) (fs : FS),
      (runTasks o ts fs).2.1.length = ts.length := by
  intro ts
  induction ts with
  | nil => intro fs; rfl
  | cons t rest ih =>
    intro fs
    unfold runTasks
    dsimp only
    simp [ih]

/-- **C2**: a task whose destination already exists is `Skipped` at once
with zero requests; consequently, after a run in which every task ended
`Done` or `Skipped`, re-running the same manifest on the resulting
directory leaves the filesystem byte-identical, skips every task and
makes zero requests — whatever the network would have answered. -/
theorem C2_rerun_skips_everything :
    (∀ (o : Oracle) (fs : FS) (t : Task), fsExists fs t.dest = true →
        downloadIfNotExists o fs t = (fs, .skipped, 0)) ∧
    (∀ (tz : Int) (o : Oracle) (fs fs₁ : FS) (items : List AwemeItem)
        (rs : List FetchResult) (n : Nat),
        run tz o fs items = .ok (fs₁, rs, n) →
        (∀ r ∈ rs, r = .done ∨ r = .skipped) →
        ∀ o₂ : Oracle,
          run tz o₂ fs₁ items =
            .ok (fs₁, rs.map (fun _ => FetchResult.skipped), 0)) := by
  refine ⟨downloadIfNotExists_skip, ?_⟩
  intro tz o fs fs₁ items rs n h hok o₂
  unfold run at h ⊢
  cases hp : processDataTasks tz items with
  | error e => rw [hp] at h; simp at h
  | ok ts =>
    rw [hp] at h
    injection h with h'
    have hfs : (runTasks o ts fs).1 = fs₁ := by rw [h']
    have hrs : (runTasks o ts fs).2.1 = rs := by rw [h']
    have hgood : ∀ t ∈ ts, ¬ IsPartName t.dest := by
      intro t ht hpart
      obtain ⟨uid, ct, s, hs⟩ := processDataTasks_goodDest tz items ts hp t ht
      exact buildName_not_part tz t.kind uid ct s (hs ▸ hpart)
    have hall : ∀ t ∈ ts, fsExists fs₁ t.dest = true := by
      intro t ht
      rw [← hfs]
      exact runTasks_dest_exists o ts fs (by rw [hrs]; exact hok) hgood t ht
    have hlen : ts.length = rs.length := by rw [← hrs, runTasks_length]
    have hmap : ts.map (fun _ => FetchResult.skipped) =
        rs.map (fun _ => FetchResult.skipped) := by
      rw [List.map_const', List.map_const', hlen]
    show Except.ok (runTasks o₂ ts fs₁) =
      Except.ok (fs₁, rs.map (fun _ => FetchResult.skipped), 0)
    rw [runTasks_all_skip o₂ ts fs₁ hall, hmap]

/-- Closed instance of `C2_rerun_skips_everything`: one successful run,
then a second run over the produced directory skips and makes zero
requests. -/
theorem C2_witness :
    run 0 (fun _ => NetOutcome.resp 200 [[7]] true) []
        [⟨some [goodAweme]⟩] =
      .ok ([("douyin_u2_20231114221320_def456.mp4",
          ⟨[7], 1700000000, 1700000000⟩)], [.done], 1) ∧
    (∀ r ∈ [FetchResult.done], r = .done ∨ r = .skipped) ∧
    run 0 (fun _ => NetOutcome.resp 200 [[7]] true)
        [("douyin_u2_20231114221320_def456.mp4",
          ⟨[7], 1700000000, 1700000000⟩)]
        [⟨some [goodAweme]⟩] =
      .ok ([("douyin_u2_20231114221320_def456.mp4",
          ⟨[7], 1700000000, 1700000000⟩)],
        [FetchResult.done].map (fun _ => FetchResult.skipped), 0) := by
  refine ⟨by decide, by decide, ?_⟩
  exact C2_rerun_skips_everything.2 0
    (fun _ => NetOutcome.resp 200 [[7]] true) []
    [("douyin_u2_20231114221320_def456.mp4", ⟨[7], 1700000000, 1700000000⟩)]
    [⟨some [goodAweme]⟩] [.done] 1 (by decide) (by decide)
    (fun _ => NetOutcome.resp 200 [[7]] true)

end Douyin
